import Mathlib

/-!
Verification of the lore knowledge base of `src/utils/fangen_lore_manager.py`
(class `FangenLoreManager`).

Strings are modelled as Lean `String` / `List Char` (Python strings are
sequences of code points).  `str.lower` is modelled for the ASCII range by
`Char.toLower`; every literal the manager compares against is ASCII.
Python dictionaries are modelled as association lists in insertion order
with insert-or-replace-in-place semantics (`dinsert`), matching CPython
dict ordering.  Python values stored in the knowledge base (strings,
dicts, lists) are modelled by the inductive type `PyVal`.

The regular-expression layer (`re.findall` / `re.search`) is Python
library code external to the repository; parsing passes are therefore
defined as functions of the match lists those regex calls produce, with
the per-match processing translated from the source.  The bracketed
`[INV_UPDATE: ...]` extraction, `str.find`, slicing, `in` (substring),
`str.strip`, `str.lower` and `sorted` are modelled directly.
-/

namespace Zxi

/-! ## Python string primitives -/

/-- `listPrefixOf n l` : is `n` a prefix of `l`?  (Char comparison by code point.) -/
def listPrefixOf : List Char → List Char → Bool
  | [], _ => true
  | _ :: _, [] => false
  | a :: as, b :: bs => (a.toNat == b.toNat) && listPrefixOf as bs

/-- Python substring test `needle in hay` (contiguous substring). -/
def listInfixOf : List Char → List Char → Bool
  | n, [] => n.isEmpty
  | n, c :: rest => listPrefixOf n (c :: rest) || listInfixOf n rest

/-- Python `needle in hay` for strings. -/
def pyIn (needle hay : String) : Bool := listInfixOf needle.data hay.data

/-- Python `str.lower`, modelled on the ASCII range (all literals compared
by the manager are ASCII). -/
def pyLower (s : String) : String := ⟨s.data.map Char.toLower⟩

/-- Python whitespace for `str.strip` (ASCII whitespace). -/
def isPyWs (c : Char) : Bool := [' ', '\t', '\n', '\r', '\x0b', '\x0c'].contains c

/-- Python `str.strip()`. -/
def pyStrip (s : String) : String :=
  ⟨((s.data.dropWhile isPyWs).reverse.dropWhile isPyWs).reverse⟩

/-- First index at which `needle` occurs in the remaining list, `i` being
the index of the head of the remaining list. -/
def firstOccAux (needle : List Char) : List Char → Nat → Option Nat
  | [], i => if needle.isEmpty then some i else none
  | c :: rest, i => if listPrefixOf needle (c :: rest) then some i else firstOccAux needle rest (i + 1)

/-- Python `hay.find(needle)` : index of first occurrence, `-1` if absent. -/
def pyFind (hay needle : List Char) : Int :=
  match firstOccAux needle hay 0 with
  | some i => (i : Int)
  | none => -1

/-- Python slice-index normalisation for `l[a:b]` : a negative index counts
from the end (clamped at 0), a nonnegative index is clamped at the length. -/
def pySliceIdx (n : Nat) (i : Int) : Nat :=
  if i < 0 then ((n : Int) + i).toNat else min i.toNat n

/-- Python slice `l[a:b]` with full negative-index semantics. -/
def pySlice (l : List Char) (a b : Int) : List Char :=
  (l.take (pySliceIdx l.length b)).drop (pySliceIdx l.length a)

/-- Python `<` on code-point lists (lexicographic, as for Python strings). -/
def charListLt : List Char → List Char → Bool
  | [], [] => false
  | [], _ :: _ => true
  | _ :: _, [] => false
  | a :: as, b :: bs =>
    if a.toNat < b.toNat then true
    else if b.toNat < a.toNat then false
    else charListLt as bs

/-- Python `<=` on strings (code-point lexicographic order, as used by `sorted`). -/
def pyStrLe (a b : String) : Bool := !(charListLt b.data a.data)

/-- Python `sorted` on a list of strings. -/
def pySorted (l : List String) : List String :=
  List.insertionSort (fun a b => pyStrLe a b = true) l

/-- Worker for `charRuns`; the fuel dominates the number of scan steps. -/
def charRunsGo (p : Char → Bool) : Nat → List Char → List String
  | 0, _ => []
  | _ + 1, [] => []
  | fuel + 1, c :: rest =>
    if p c then
      let run := (c :: rest).takeWhile p
      let rest' := (c :: rest).dropWhile p
      ⟨run⟩ :: charRunsGo p fuel rest'
    else charRunsGo p fuel rest

/-- Maximal runs of chars satisfying `p` (models `re.findall` of a
one-or-more character class, e.g. `[a-z]+`). -/
def charRuns (p : Char → Bool) (l : List Char) : List String :=
  charRunsGo p l.length l

/-- Is `c` a lowercase ASCII letter (`[a-z]`)? -/
def isLowerAZ (c : Char) : Bool := 'a' ≤ c && c ≤ 'z'

/-! ## Python values and dictionaries -/

/-- A Python value as stored in the knowledge base: a string, a dict with
string keys, or a list. -/
inductive PyVal where
  | str (s : String)
  | vdict (fields : List (String × PyVal))
  | vlist (elems : List PyVal)

/-- Python `k in d` for a dict. -/
def dcontains (d : List (String × α)) (k : String) : Bool :=
  d.any (fun kv => kv.1 == k)

/-- Python `d[k]` lookup (first matching key; dict keys are unique). -/
def dlookup : List (String × α) → String → Option α
  | [], _ => none
  | kv :: rest, k => if kv.1 == k then some kv.2 else dlookup rest k

/-- Python `d[k] = v` : replace the value in place if the key exists
(keeping its position), else append, as CPython dicts do. -/
def dinsert : List (String × α) → String → α → List (String × α)
  | [], k, v => [(k, v)]
  | kv :: rest, k, v => if kv.1 == k then (k, v) :: rest else kv :: dinsert rest k v

/-- Python `d.update(u)` : `dinsert` each pair of `u` in order. -/
def dupdate (d u : List (String × α)) : List (String × α) :=
  u.foldl (fun acc kv => dinsert acc kv.1 kv.2) d

/-- Apply `f` to the value stored at key `k` (models in-place mutation
`d[k].update(...)` of the value object). -/
def dmodify : List (String × α) → String → (α → α) → List (String × α)
  | [], _, _ => []
  | kv :: rest, k, f =>
    (if kv.1 == k then (kv.1, f kv.2) else kv) :: dmodify rest k f

/-- Keys of a dict, in order. -/
def dkeys (d : List (String × α)) : List String := d.map Prod.fst

/-- `dict.update` lifted to a `PyVal` known to be a dict.  On a non-dict
Python would raise `AttributeError`; the manager only ever updates values
it created as dicts, so that branch is unreachable in any parse run and
is modelled as the identity. -/
def vupdate (v : PyVal) (u : List (String × PyVal)) : PyVal :=
  match v with
  | .vdict fields => .vdict (dupdate fields u)
  | other => other

/-! ## The manager state -/

/-- The state of a `FangenLoreManager`: the eight category dicts of
`self.lore_data` (in their fixed insertion order) plus the
`self.characters`, `self.items` and `self.quests` name lists. -/
structure LoreState where
  world : List (String × PyVal)
  events : List (String × PyVal)
  themes : List (String × PyVal)
  characters : List (String × PyVal)
  locations : List (String × PyVal)
  factions : List (String × PyVal)
  items : List (String × PyVal)
  quests : List (String × PyVal)
  charNames : List String
  itemNames : List String
  questNames : List String

/-- The state set up by `__init__` before `load_lore` runs: all empty. -/
def initLoreState : LoreState :=
  ⟨[], [], [], [], [], [], [], [], [], [], []⟩

/-- `self.lore_data.items()` : the category dicts with their names, in the
fixed insertion order of `__init__`. -/
def loreItems (st : LoreState) : List (String × List (String × PyVal)) :=
  [("world", st.world), ("events", st.events), ("themes", st.themes),
   ("characters", st.characters), ("locations", st.locations),
   ("factions", st.factions), ("items", st.items), ("quests", st.quests)]

/-- Well-formedness: every category dict has pairwise-distinct keys
(true of Python dicts by construction). -/
def LoreWF (st : LoreState) : Prop :=
  (dkeys st.world).Nodup ∧ (dkeys st.events).Nodup ∧ (dkeys st.themes).Nodup ∧
  (dkeys st.characters).Nodup ∧ (dkeys st.locations).Nodup ∧ (dkeys st.factions).Nodup ∧
  (dkeys st.items).Nodup ∧ (dkeys st.quests).Nodup

/-! ## Knowledge-base query surface (translated from the source methods) -/

/-- `get_categories` : names of the categories whose dict is non-empty. -/
def get_categories (st : LoreState) : List String :=
  ((loreItems st).filter (fun p => !p.2.isEmpty)).map Prod.fst

/-- `get_entries_by_category` : if `category.lower()` is a key of
`self.lore_data`, the sorted entry names of that dict, else `[]`. -/
def get_entries_by_category (st : LoreState) (category : String) : List String :=
  match dlookup (loreItems st) (pyLower category) with
  | some entries => pySorted (dkeys entries)
  | none => []

/-- The `for category, entries in self.lore_data.items()` loop of
`get_entry_content`: return the value from the first dict containing the
name. -/
def firstEntryHit : List (String × List (String × PyVal)) → String → Option PyVal
  | [], _ => none
  | (_, entries) :: rest, n =>
    match dlookup entries n with
    | some v => some v
    | none => firstEntryHit rest n

/-- `get_entry_content` : the record under the name in the first category
containing it, in the fixed category order, else `None`. -/
def get_entry_content (st : LoreState) (entry_name : String) : Option PyVal :=
  firstEntryHit (loreItems st) entry_name

/-- `get_character_info`. -/
def get_character_info (st : LoreState) (character_name : String) : Option PyVal :=
  dlookup st.characters character_name

/-- `get_item_info`. -/
def get_item_info (st : LoreState) (item_name : String) : Option PyVal :=
  dlookup st.items item_name

/-- `get_quest_info`. -/
def get_quest_info (st : LoreState) (quest_name : String) : Option PyVal :=
  dlookup st.quests quest_name

/-- The per-entry match test of `search_lore`, translated from its loop
body: a string content matches when the lowered query occurs in the
lowered text (the entry name is not consulted); a dict content matches
when some string-valued field contains the query (checked first, with
short-circuit) or the query occurs in the entry name; any other content
never matches. -/
def entryMatches (query name : String) (content : PyVal) : Bool :=
  match content with
  | .str s => pyIn (pyLower query) (pyLower s)
  | .vdict fields =>
    (fields.any (fun kv =>
      match kv.2 with
      | .str v => pyIn (pyLower query) (pyLower v)
      | _ => false))
    || pyIn (pyLower query) (pyLower name)
  | .vlist _ => false

/-- The `category_results` list of one iteration of the `search_lore`
loop: the names of the entries of the category that match the query, in
entry order. -/
def searchCategory (query : String) (entries : List (String × PyVal)) : List String :=
  (entries.filter (fun kv => entryMatches query kv.1 kv.2)).map Prod.fst

/-- The `for category, entries in self.lore_data.items()` loop of
`search_lore`: the category key is added only when its result list is
non-empty. -/
def searchCats (query : String) : List (String × List (String × PyVal)) → List (String × List String)
  | [] => []
  | p :: rest =>
    let rs := searchCategory query p.2
    if rs.isEmpty then searchCats query rest
    else (p.1, rs) :: searchCats query rest

/-- `search_lore` : for each category in order, the names of the matching
entries; the category key is added only when that list is non-empty. -/
def search_lore (st : LoreState) (query : String) : List (String × List String) :=
  searchCats query (loreItems st)

/-- A Python exception (only its occurrence matters here). -/
inductive PyExn where
  | attributeError
  | exn

/-- The fallback reply of `get_character_dialogue` for an unknown name. -/
def unknownCharReply (character_name : String) : String :=
  "I am " ++ character_name ++ ". What do you want to know?"

/-- `get_character_dialogue`, translated from the source: unknown name →
fallback string; otherwise `.get("personality", "")`, trait extraction by
`re.findall` of `[a-z]+` over the lowered personality text, then the
five-way template choice.  Calling `.get` on a non-dict entry would raise
in Python and is modelled as `.error`. -/
def get_character_dialogue (st : LoreState) (character_name context : String) :
    Except PyExn String :=
  match dlookup st.characters character_name with
  | none => .ok (unknownCharReply character_name)
  | some character =>
    match character with
    | .vdict fields =>
      let personality := (dlookup fields "personality").getD (.str "")
      let traits : List String :=
        match personality with
        | .str p => charRuns isLowerAZ (pyLower p).data
        | _ => []
      .ok (if traits.contains "playful" || traits.contains "quirky" || traits.contains "eccentric" then
        "*with a mischievous grin* Ah, curious about " ++ context ++ ", are you? Well, let me tell you something interesting..."
      else if traits.contains "stoic" || traits.contains "cold" || traits.contains "methodical" then
        "*stares intently* " ++ context ++ "? I will speak of it, though few deserve such knowledge."
      else if traits.contains "arrogant" || traits.contains "cunning" then
        "*smirks confidently* You wish to know of " ++ context ++ "? Most wouldn\x27t even comprehend it, but perhaps you might..."
      else if traits.contains "fierce" || traits.contains "protective" || traits.contains "loyal" then
        "*stands tall* " ++ context ++ " is a matter of honor and duty. Listen carefully to what I tell you."
      else
        "You ask about " ++ context ++ "? Very well, I shall share what I know.")
    | _ => .error .attributeError

/-- JSON escaping of a string value, modelling `json.dumps` far enough
for substring search over the serialised entry (quote and backslash
escaping; the manager only ever searches for character names, which
contain neither). -/
def jsonEscape (s : String) : String :=
  ⟨s.data.foldr (fun c acc =>
    if c == '"' then '\\' :: '"' :: acc
    else if c == '\\' then '\\' :: '\\' :: acc
    else c :: acc) []⟩

mutual
/-- `json.dumps` of a `PyVal` (default separators). -/
def pyJsonDumps : PyVal → String
  | .str s => "\"" ++ jsonEscape s ++ "\""
  | .vdict fields => "\x7b" ++ pyJsonDumpsFields fields ++ "\x7d"
  | .vlist elems => "[" ++ pyJsonDumpsElems elems ++ "]"

def pyJsonDumpsFields : List (String × PyVal) → String
  | [] => ""
  | [(k, v)] => "\"" ++ jsonEscape k ++ "\": " ++ pyJsonDumps v
  | (k, v) :: rest => "\"" ++ jsonEscape k ++ "\": " ++ pyJsonDumps v ++ ", " ++ pyJsonDumpsFields rest

def pyJsonDumpsElems : List PyVal → String
  | [] => ""
  | [v] => pyJsonDumps v
  | v :: rest => pyJsonDumps v ++ ", " ++ pyJsonDumpsElems rest
end

/-! ## Parser: character profiles (`_parse_character_profiles`)

The two `re.findall` calls of `_parse_character_profiles` are Python
regex-library calls on the raw document; their results are modelled as
input match lists.  A short-form match carries the three captured groups
plus the item/quest connection strings the source then derives from the
document by further regex searches; an expanded-form match carries its
six captured groups.  The per-match processing below is translated from
the two loops of the source. -/

/-- One match of the short character pattern
(`Backstory & Role` / `Personality & Motivations`), together with the
item/quest connection strings extracted for it from the document. -/
structure ShortMatch where
  name : String
  backstory : String
  personality : String
  itemConnections : String
  questConnections : String

/-- One match of the expanded character pattern
(`Role` / `Backstory` / `Personality` / `Relationships` /
`Significance in Lore`). -/
structure ExpandedMatch where
  name : String
  role : String
  backstory : String
  personality : String
  relationships : String
  significance : String

/-- The record built for a short-form match. -/
def shortRecord (b p ic qc : String) : List (String × PyVal) :=
  [("backstory", .str b), ("personality", .str p),
   ("item_connections", .str ic), ("quest_connections", .str qc)]

/-- The three fields merged onto an existing record for an expanded-form
match of a known name. -/
def expandedExtra (ro re si : String) : List (String × PyVal) :=
  [("role", .str ro), ("relationships", .str re), ("significance", .str si)]

/-- The record built for an expanded-form match of a new name. -/
def expandedRecord (ro b p re si : String) : List (String × PyVal) :=
  [("role", .str ro), ("backstory", .str b), ("personality", .str p),
   ("relationships", .str re), ("significance", .str si)]

/-- Loop body of the first (short form) pass. -/
def applyShortMatch (st : LoreState) (m : ShortMatch) : LoreState :=
  let name := pyStrip m.name
  { st with
    characters := dinsert st.characters name
      (.vdict (shortRecord (pyStrip m.backstory) (pyStrip m.personality)
        m.itemConnections m.questConnections)),
    charNames := st.charNames ++ [name] }

/-- Loop body of the second (expanded form) pass: enhance an existing
record in place, or insert a new one and record the name. -/
def applyExpandedMatch (st : LoreState) (m : ExpandedMatch) : LoreState :=
  let name := pyStrip m.name
  if dcontains st.characters name then
    { st with
      characters := dmodify st.characters name
        (fun v => vupdate v (expandedExtra (pyStrip m.role) (pyStrip m.relationships)
          (pyStrip m.significance))) }
  else
    { st with
      characters := dinsert st.characters name
        (.vdict (expandedRecord (pyStrip m.role) (pyStrip m.backstory)
          (pyStrip m.personality) (pyStrip m.relationships) (pyStrip m.significance))),
      charNames := if st.charNames.contains name then st.charNames
                   else st.charNames ++ [name] }

/-- `_parse_character_profiles`: the short-form pass followed by the
expanded-form pass. -/
def parse_character_profiles (st : LoreState) (shorts : List ShortMatch)
    (exps : List ExpandedMatch) : LoreState :=
  exps.foldl applyExpandedMatch (shorts.foldl applyShortMatch st)

/-! ## Parser: quest scenes (`_parse_quest_scenes`)

The scene and choice `re.findall` calls are modelled as input match
lists.  Crucially, in the source the choice pattern is matched against
`content` — the whole document — not against `scene_content`; the choice
match list is therefore a function of the document alone and the same
list is handed to every scene of every quest. -/

/-- One match of the document-wide choice pattern
(`Option <id>: ...` with optional player line and an `Outcome:` block). -/
structure ChoiceMatch where
  id : String
  desc : String
  player : String
  outcome : String

/-- One match of the per-quest scene pattern (`Scene <n>: <title>`),
with the results of the `Setting` regex search and the NPC dialogue
findall over the scene body. -/
structure SceneMatch where
  num : String
  title : String
  settingMatch : Option String
  npcMatches : List (String × String)

/-- A parsed choice record. -/
structure Choice where
  id : String
  description : String
  player_dialogue : String
  outcome : String
  inventory_updates : List String

/-- A parsed scene record. -/
structure Scene where
  number : String
  title : String
  setting : String
  npc_dialogues : List (String × String)
  choices : List Choice

/-- Worker for `extractInvUpdates`; fuel dominates the scan length. -/
def invScanGo : Nat → List Char → List String
  | 0, _ => []
  | _ + 1, [] => []
  | fuel + 1, c :: rest =>
    if listPrefixOf "[INV_UPDATE: ".data (c :: rest) then
      let after := (c :: rest).drop 13
      let run := after.takeWhile (fun ch => ch != ']')
      let rest' := after.dropWhile (fun ch => ch != ']')
      match rest', run with
      | _ :: tail, _ :: _ => (⟨run⟩ : String) :: invScanGo fuel tail
      | _, _ => invScanGo fuel rest
    else invScanGo fuel rest

/-- `re.findall(r'\[INV_UPDATE: ([^\]]+)\]', outcome)`: each captured
directive, in order, scanning left to right without overlap. -/
def extractInvUpdates (outcome : String) : List String :=
  invScanGo outcome.data.length outcome.data

/-- The choice record built for one choice match (loop body of the
choice loop). -/
def buildChoice (m : ChoiceMatch) : Choice :=
  { id := m.id,
    description := pyStrip m.desc,
    player_dialogue := pyStrip m.player,
    outcome := pyStrip m.outcome,
    inventory_updates := (extractInvUpdates m.outcome).map pyStrip }

/-- The scene record built for one scene match; `choiceMatches` is the
document-wide choice match list. -/
def buildScene (choiceMatches : List ChoiceMatch) (sm : SceneMatch) : Scene :=
  { number := sm.num,
    title := pyStrip sm.title,
    setting := match sm.settingMatch with
               | some s => pyStrip s
               | none => "",
    npc_dialogues := sm.npcMatches.foldl
      (fun d nd => dinsert d (pyStrip nd.1) (pyStrip nd.2)) [],
    choices := choiceMatches.map buildChoice }

/-- `_parse_quest_scenes`: one scene record per scene match, every one of
them carrying the choices built from the document-wide match list. -/
def parse_quest_scenes (choiceMatches : List ChoiceMatch)
    (sceneMatches : List SceneMatch) : List Scene :=
  sceneMatches.map (buildScene choiceMatches)

/-- Modelled from the spec: the quest engine resolves a choice id against
a scene's choice list by first match (`utils/quest_manager.py` is not
among the provided sources; per §4.3/§9 of the spec, lookups take the
first match in document order). -/
def findChoiceById (choices : List Choice) (choice_id : String) : Option Choice :=
  choices.find? (fun c => c.id == choice_id)

/-! ## Parser: item rarity (`_parse_items_and_quests`)

For an item example string matched by the catalogue regex, the source
classifies rarity by substring search in
`content[content.find(item)-100 : content.find(item)+100]` — a Python
slice whose start index is negative whenever the first occurrence is at
a position below 100, wrapping to the end of the document. -/

/-- The rarity classification of the source, with full Python slice
semantics. -/
def rarityOf (content item : List Char) : String :=
  let pos := pyFind content item
  let window := pySlice content (pos - 100) (pos + 100)
  if listInfixOf "Legendary".data window then "Legendary"
  else if listInfixOf "Rare".data window then "Rare"
  else "Normal"

/-- The rarity classification the claim describes: the literal word
checked inside the text window from 100 characters before to 100
characters after the start of the first occurrence of the item name
(clamped at the document ends). -/
def claimRarity (content item : List Char) : String :=
  let pos := (firstOccAux item content 0).getD 0
  let window := (content.take (pos + 100)).drop (pos - 100)
  if listInfixOf "Legendary".data window then "Legendary"
  else if listInfixOf "Rare".data window then "Rare"
  else "Normal"

/-! ## `load_lore` (error handling)

`load_lore` wraps everything in `try/except Exception`: a missing file
logs a warning and returns with the state untouched; reading and parsing
happen inside the `try`, and any exception is logged and swallowed.  The
file read and the parse are modelled as inputs: the read as the
`Except` it would produce, the parse as the state it leaves together
with the exception it raises, if any (Python mutates `self` in place, so
a failing parse still leaves a state). -/

/-- Outcome of the `try` block: a normal return or an exception escaping
to the `except` clause, in both cases with the manager state. -/
inductive TryOutcome where
  | ok (s : LoreState)
  | raised (s : LoreState) (e : PyExn)

/-- The `try` block of `load_lore`. -/
def load_lore_try (st : LoreState) (fileExists : Bool)
    (readFile : Except PyExn String)
    (parseLore : String → LoreState → LoreState × Option PyExn) : TryOutcome :=
  if !fileExists then .ok st
  else
    match readFile with
    | .error e => .raised st e
    | .ok raw =>
      match parseLore raw st with
      | (s, none) => .ok s
      | (s, some e) => .raised s e

/-- `load_lore`: the `try` block with the `except Exception` clause, which
logs and returns normally. -/
def load_lore (st : LoreState) (fileExists : Bool)
    (readFile : Except PyExn String)
    (parseLore : String → LoreState → LoreState × Option PyExn) : Except PyExn LoreState :=
  match load_lore_try st fileExists readFile parseLore with
  | .ok s => .ok s
  | .raised s _ => .ok s

/-- Python falsiness of an entry content (`if not entry_content`). -/
def pyFalsy : PyVal → Bool
  | .str s => s.isEmpty
  | .vdict fields => fields.isEmpty
  | .vlist elems => elems.isEmpty

/-- `get_related_characters` : every known character name occurring
(case-sensitively) in the serialised text of the entry content. -/
def get_related_characters (st : LoreState) (entry_name : String) : List String :=
  match get_entry_content st entry_name with
  | none => []
  | some c =>
    if pyFalsy c then []
    else
      let entry_str : String :=
        match c with
        | .str s => s
        | .vdict _ => pyJsonDumps c
        | .vlist _ => ""
      st.charNames.filter (fun ch => pyIn ch entry_str)

/-! ## Explicit-state view of the query surface

The nine read operations as one interpreter in explicit state-passing
style: each call returns its result together with the manager state it
leaves behind.  The method bodies read `self` and never assign to it, so
the translation threads the state through unchanged. -/

/-- A call to one of the nine query operations. -/
inductive QueryCall where
  | categories
  | entriesByCategory (category : String)
  | entryContent (name : String)
  | characterInfo (name : String)
  | itemInfo (name : String)
  | questInfo (name : String)
  | search (query : String)
  | characterDialogue (name context : String)
  | relatedCharacters (name : String)

/-- The result of a query call. -/
inductive QueryAnswer where
  | names (l : List String)
  | record (v : Option PyVal)
  | table (t : List (String × List String))
  | reply (r : Except PyExn String)

/-- Run one query operation against the manager state. -/
def runQuery (st : LoreState) : QueryCall → QueryAnswer × LoreState
  | .categories => (.names (get_categories st), st)
  | .entriesByCategory c => (.names (get_entries_by_category st c), st)
  | .entryContent n => (.record (get_entry_content st n), st)
  | .characterInfo n => (.record (get_character_info st n), st)
  | .itemInfo n => (.record (get_item_info st n), st)
  | .questInfo n => (.record (get_quest_info st n), st)
  | .search q => (.table (search_lore st q), st)
  | .characterDialogue n c => (.reply (get_character_dialogue st n c), st)
  | .relatedCharacters n => (.names (get_related_characters st n), st)

/-! ## Spec-side definitions for the search claims -/

/-- The match rule C5 asserts, written from the claim: the query occurs
case-insensitively in the entry name or in some string-valued field of
the content — reading "the text itself" as the field set of a free-text
entry. -/
def claimMatch (query name : String) (content : PyVal) : Bool :=
  match content with
  | .str s => pyIn (pyLower query) (pyLower name) || pyIn (pyLower query) (pyLower s)
  | .vdict fields =>
    pyIn (pyLower query) (pyLower name) ||
    (fields.any (fun kv =>
      match kv.2 with
      | .str v => pyIn (pyLower query) (pyLower v)
      | _ => false))
  | .vlist _ => false

/-- The match rule the code implements, stated per entry shape: for a
record, a string-valued field or the entry name; for free text, the text
alone (the name is not consulted). -/
def amendedMatch (query name : String) (content : PyVal) : Bool :=
  match content with
  | .str s => pyIn (pyLower query) (pyLower s)
  | .vdict fields =>
    pyIn (pyLower query) (pyLower name) ||
    (fields.any (fun kv =>
      match kv.2 with
      | .str v => pyIn (pyLower query) (pyLower v)
      | _ => false))
  | .vlist _ => false

/-- The list bound to a category key in a search result (empty when the
key is absent). -/
def resultsFor (results : List (String × List String)) (category : String) : List String :=
  (dlookup results category).getD []

/-! ## Concrete states and documents for counterexamples and witnesses -/

/-- The state built by the short-form character pass on one match: what
the manager holds after parsing a document containing one short-form
character profile. -/
def kbOneChar : LoreState :=
  (([{ name := "Amara", backstory := "Guardian of the ember gate",
       personality := "Fierce and loyal", itemConnections := "",
       questConnections := "" }] : List ShortMatch).foldl applyShortMatch initLoreState)

/-- A free-text world entry whose name contains the probe query but whose
text does not. -/
def kbFreeText : LoreState :=
  { initLoreState with world := [("Dragon", .str "fire and ash")] }

/-- Counterexample document for the rarity window: the catalogued item
name first occurs at position 14, so the slice start index is negative
and the slice is empty, although the word Legendary sits right before
the item name. -/
def cexRarityDoc : List Char :=
  "The Legendary Solar Fang.".data ++ List.replicate 200 'x'

/-- The catalogued item name used in the rarity counterexample. -/
def cexRarityItem : List Char := "Solar Fang".data

/-- Witness document for the rarity window: the item first occurs at
position 100, so the Python slice is the genuine 100-around window. -/
def witRarityDoc : List Char :=
  List.replicate 100 'x' ++ "Solar Fang is Legendary".data

/-- Shape test: is a stored content a string or a dict (the only shapes
the parser ever stores at the top level of a category)? -/
def topShape : PyVal → Bool
  | .vlist _ => false
  | _ => true

/-- Every top-level content of every category is a string or a dict. -/
def TopWF (st : LoreState) : Prop :=
  ∀ cd ∈ loreItems st, ∀ kv ∈ cd.2, topShape kv.2 = true

/-- Is a value a Python dict? -/
def isVDict : PyVal → Bool
  | .vdict _ => true
  | _ => false

/-- Short-form character matches used in concrete witnesses. -/
def witShortMs : List ShortMatch :=
  [{ name := "Amara", backstory := "Guardian of the ember gate",
     personality := "Fierce and loyal", itemConnections := "",
     questConnections := "" }]

/-- Expanded-form character matches used in concrete witnesses: one name
also present in short form, one net-new name. -/
def witExpMs : List ExpandedMatch :=
  [{ name := "Amara", role := "Guide", backstory := "Expanded backstory",
     personality := "Expanded personality", relationships := "Bren",
     significance := "Keeper of the gate" },
   { name := "Bren", role := "Smith", backstory := "Forge born",
     personality := "Stoic", relationships := "Amara",
     significance := "Maker of the moon blade" }]

/-- The first of two choice matches sharing the option id `1A`. -/
def witChoice1A : ChoiceMatch :=
  { id := "1A", desc := "Press on", player := "Onward",
    outcome := "You advance. [INV_UPDATE: +1 Ember Dust]" }

/-- Choice matches used in concrete witnesses: two matches sharing the
option id `1A`, as with an id collision across scenes. -/
def witChoiceMs : List ChoiceMatch :=
  [witChoice1A,
   { id := "1A", desc := "Hold back", player := "",
     outcome := "You wait." }]

/-- A scene match used in concrete witnesses. -/
def witSceneM : SceneMatch :=
  { num := "1", title := "The Spark", settingMatch := some "A dark cave",
    npcMatches := [("Amara", "Welcome")] }

/-- A second scene match (as from another quest). -/
def witSceneM2 : SceneMatch :=
  { num := "2", title := "The Flame", settingMatch := none, npcMatches := [] }

end Zxi

/-! # Lemmas and theorems -/

namespace Zxi

set_option maxRecDepth 4000

/-! ## Dictionary lemmas -/

theorem dlookup_dinsert_self (d : List (String × α)) (k : String) (v : α) :
    dlookup (dinsert d k v) k = some v := by
  induction d with
  | nil => simp [dinsert, dlookup]
  | cons kv rest ih =>
    by_cases h : kv.1 = k
    · simp [dinsert, h, dlookup]
    · simp only [dinsert, beq_iff_eq, h, if_false]
      simp [dlookup, h, ih]

theorem dlookup_dinsert_ne (d : List (String × α)) (k' k : String) (v : α)
    (h : k' ≠ k) : dlookup (dinsert d k' v) k = dlookup d k := by
  induction d with
  | nil => simp [dinsert, dlookup, h]
  | cons kv rest ih =>
    by_cases hk : kv.1 = k'
    · simp [dinsert, hk, dlookup, h, hk ▸ h]
    · simp only [dinsert, beq_iff_eq, hk, if_false]
      by_cases hk2 : kv.1 = k
      · simp [dlookup, hk2]
      · simp [dlookup, hk2, ih]

theorem dcontains_eq_isSome (d : List (String × α)) (k : String) :
    dcontains d k = (dlookup d k).isSome := by
  induction d with
  | nil => simp [dcontains, dlookup]
  | cons kv rest ih =>
    by_cases h : kv.1 = k
    · simp [dcontains, dlookup, h]
    · simp [dcontains, dlookup, h, ← ih]

theorem dlookup_dmodify_self (d : List (String × α)) (k : String) (f : α → α) :
    dlookup (dmodify d k f) k = (dlookup d k).map f := by
  induction d with
  | nil => simp [dmodify, dlookup]
  | cons kv rest ih =>
    by_cases h : kv.1 = k
    · simp [dmodify, dlookup, h]
    · simp [dmodify, dlookup, h, ih]

theorem dlookup_dmodify_ne (d : List (String × α)) (k' k : String) (f : α → α)
    (h : k' ≠ k) : dlookup (dmodify d k' f) k = dlookup d k := by
  induction d with
  | nil => simp [dmodify, dlookup]
  | cons kv rest ih =>
    obtain ⟨k1, v1⟩ := kv
    by_cases hk : k1 = k'
    · simp [dmodify, dlookup, hk, h, ih]
    · by_cases hk2 : k1 = k
      · subst hk2
        simp [dmodify, dlookup, hk]
      · simp [dmodify, dlookup, hk, hk2, ih]

theorem dlookup_mem {d : List (String × α)} {k : String} {v : α}
    (h : dlookup d k = some v) : (k, v) ∈ d := by
  induction d with
  | nil => simp [dlookup] at h
  | cons kv rest ih =>
    by_cases hk : kv.1 = k
    · simp only [dlookup, hk, beq_self_eq_true, if_true, Option.some.injEq] at h
      have hkv : kv = (k, v) := by
        obtain ⟨k1, v1⟩ := kv
        simp at hk h
        simp [hk, h]
      rw [← hkv]
      exact List.mem_cons_self _ _
    · simp only [dlookup, beq_iff_eq, hk, if_false] at h
      exact List.mem_cons_of_mem _ (ih h)

theorem mem_dkeys_dinsert (d : List (String × α)) (k a : String) (v : α) :
    a ∈ dkeys (dinsert d k v) ↔ a = k ∨ a ∈ dkeys d := by
  induction d with
  | nil => simp [dinsert, dkeys]
  | cons kv rest ih =>
    by_cases h : kv.1 = k
    · simp only [dinsert, h, beq_self_eq_true, if_true, dkeys, List.map_cons, List.mem_cons]
      rw [← h]
      tauto
    · simp only [dinsert, beq_iff_eq, h, if_false, dkeys, List.map_cons, List.mem_cons]
      rw [show (List.map Prod.fst (dinsert rest k v) = dkeys (dinsert rest k v)) from rfl, ih]
      rw [show (List.map Prod.fst rest = dkeys rest) from rfl]
      tauto

theorem nodup_dkeys_dinsert (d : List (String × α)) (k : String) (v : α)
    (h : (dkeys d).Nodup) : (dkeys (dinsert d k v)).Nodup := by
  induction d with
  | nil => simp [dinsert, dkeys]
  | cons kv rest ih =>
    simp only [dkeys, List.map_cons, List.nodup_cons] at h
    by_cases hk : kv.1 = k
    · simp only [dinsert, hk, beq_self_eq_true, if_true, dkeys, List.map_cons, List.nodup_cons]
      exact ⟨hk ▸ h.1, h.2⟩
    · simp only [dinsert, beq_iff_eq, hk, if_false, dkeys, List.map_cons, List.nodup_cons]
      refine ⟨fun hm => ?_, ih h.2⟩
      rw [show (List.map Prod.fst (dinsert rest k v) = dkeys (dinsert rest k v)) from rfl,
        mem_dkeys_dinsert] at hm
      rcases hm with rfl | hm
      · exact hk rfl
      · exact h.1 hm

theorem dkeys_dmodify (d : List (String × α)) (k : String) (f : α → α) :
    dkeys (dmodify d k f) = dkeys d := by
  induction d with
  | nil => simp [dmodify, dkeys]
  | cons kv rest ih =>
    have h1 : (if kv.1 == k then (kv.1, f kv.2) else kv).1 = kv.1 := by
      by_cases h : kv.1 = k <;> simp [h]
    simp only [dmodify, dkeys, List.map_cons, h1]
    exact congrArg (List.cons kv.1) ih

/-! ## Code-point order lemmas -/

theorem charListLt_asymm : ∀ a b : List Char,
    charListLt a b = true → charListLt b a = false := by
  intro a
  induction a with
  | nil =>
    intro b h
    cases b <;> simp [charListLt] at h ⊢
  | cons x xs ih =>
    intro b h
    cases b with
    | nil => simp [charListLt] at h
    | cons y ys =>
      simp only [charListLt] at h ⊢
      by_cases h1 : x.toNat < y.toNat
      · rw [if_neg (by omega), if_pos h1]
      · by_cases h2 : y.toNat < x.toNat
        · rw [if_neg h1, if_pos h2] at h
          exact absurd h (by simp)
        · rw [if_neg h1, if_neg h2] at h
          rw [if_neg h2, if_neg h1]
          exact ih ys h

theorem charListLt_resolve : ∀ a b c : List Char,
    charListLt c a = true → charListLt c b = true ∨ charListLt b a = true := by
  intro a
  induction a with
  | nil =>
    intro b c h
    cases c <;> simp [charListLt] at h
  | cons x xs ih =>
    intro b c h
    cases c with
    | nil =>
      cases b with
      | nil => exact Or.inr h
      | cons y ys => exact Or.inl (by simp [charListLt])
    | cons z zs =>
      cases b with
      | nil => exact Or.inr (by simp [charListLt])
      | cons y ys =>
        simp only [charListLt] at h ⊢
        by_cases hzx : z.toNat < x.toNat
        · by_cases hzy : z.toNat < y.toNat
          · exact Or.inl (by rw [if_pos hzy])
          · by_cases hyz : y.toNat < z.toNat
            · refine Or.inr ?_
              rw [if_pos (by omega)]
            · refine Or.inr ?_
              rw [if_pos (by omega)]
        · by_cases hxz : x.toNat < z.toNat
          · rw [if_neg hzx, if_pos hxz] at h
            exact absurd h (by simp)
          · rw [if_neg hzx, if_neg hxz] at h
            by_cases hzy : z.toNat < y.toNat
            · exact Or.inl (by rw [if_pos hzy])
            · by_cases hyz : y.toNat < z.toNat
              · refine Or.inr ?_
                rw [if_pos (by omega)]
              · rcases ih ys zs h with hl | hr
                · refine Or.inl ?_
                  rw [if_neg hzy, if_neg hyz]
                  exact hl
                · refine Or.inr ?_
                  rw [if_neg (by omega), if_neg (by omega)]
                  exact hr

instance : IsTotal String (fun a b => pyStrLe a b = true) := by
  constructor
  intro a b
  simp only [pyStrLe, Bool.not_eq_true']
  rcases h : charListLt b.data a.data
  · exact Or.inl rfl
  · exact Or.inr (charListLt_asymm _ _ h)

instance : IsTrans String (fun a b => pyStrLe a b = true) := by
  constructor
  intro a b c h1 h2
  simp only [pyStrLe, Bool.not_eq_true'] at h1 h2 ⊢
  rcases g : charListLt c.data a.data
  · rfl
  · rcases charListLt_resolve a.data b.data c.data g with hl | hr
    · simp [h2] at hl
    · simp [h1] at hr

/-! ## `get_entry_content` iteration lemmas -/

theorem firstEntryHit_none_iff (cats : List (String × List (String × PyVal))) (n : String) :
    firstEntryHit cats n = none ↔ ∀ p ∈ cats, dlookup p.2 n = none := by
  induction cats with
  | nil => simp [firstEntryHit]
  | cons q rest ih =>
    obtain ⟨c, d⟩ := q
    cases h : dlookup d n with
    | some v =>
      simp only [firstEntryHit]
      rw [h]
      simp only [List.mem_cons]
      constructor
      · intro hfe
        exact absurd hfe (by simp)
      · intro hall
        have := hall (c, d) (Or.inl rfl)
        rw [h] at this
        exact absurd this (by simp)
    | none =>
      simp only [firstEntryHit]
      rw [h]
      rw [ih]
      constructor
      · intro hall p hp
        rcases List.mem_cons.mp hp with rfl | hp'
        · exact h
        · exact hall p hp'
      · intro hall p hp
        exact hall p (List.mem_cons_of_mem _ hp)

theorem firstEntryHit_some_iff (cats : List (String × List (String × PyVal)))
    (n : String) (v : PyVal) :
    firstEntryHit cats n = some v ↔
      ∃ l₁ p l₂, cats = l₁ ++ p :: l₂ ∧
        (∀ q ∈ l₁, dlookup q.2 n = none) ∧ dlookup p.2 n = some v := by
  induction cats with
  | nil =>
    constructor
    · intro h
      simp [firstEntryHit] at h
    · rintro ⟨l₁, p, l₂, hcats, -, -⟩
      exact absurd hcats.symm (by simp)
  | cons q rest ih =>
    obtain ⟨c, d⟩ := q
    cases h : dlookup d n with
    | some w =>
      constructor
      · intro hfe
        simp only [firstEntryHit] at hfe
        rw [h] at hfe
        exact ⟨[], (c, d), rest, rfl, by simp, h.trans hfe⟩
      · rintro ⟨l₁, p, l₂, hcats, hnone, hsome⟩
        cases l₁ with
        | nil =>
          simp only [List.nil_append, List.cons.injEq] at hcats
          obtain ⟨hp, hrest⟩ := hcats
          cases hp
          simp only [firstEntryHit]
          rw [h]
          simp only at hsome
          rw [h] at hsome
          exact hsome
        | cons q1 l₁' =>
          simp only [List.cons_append, List.cons.injEq] at hcats
          have := hnone q1 (List.mem_cons_self _ _)
          rw [← hcats.1] at this
          rw [h] at this
          exact absurd this (by simp)
    | none =>
      constructor
      · intro hfe
        simp only [firstEntryHit] at hfe
        rw [h] at hfe
        obtain ⟨l₁, p, l₂, hc, hn, hs⟩ := ih.mp hfe
        refine ⟨(c, d) :: l₁, p, l₂, by rw [hc, List.cons_append], ?_, hs⟩
        intro q hq
        rcases List.mem_cons.mp hq with rfl | hq'
        · exact h
        · exact hn q hq'
      · rintro ⟨l₁, p, l₂, hcats, hnone, hsome⟩
        cases l₁ with
        | nil =>
          simp only [List.nil_append, List.cons.injEq] at hcats
          rw [← hcats.1] at hsome
          rw [h] at hsome
          exact absurd hsome (by simp)
        | cons q1 l₁' =>
          simp only [List.cons_append, List.cons.injEq] at hcats
          simp only [firstEntryHit]
          rw [h]
          refine ih.mpr ⟨l₁', p, l₂, hcats.2, ?_, hsome⟩
          intro q hq
          exact hnone q (List.mem_cons_of_mem _ hq)

/-! ## Claim theorems (C7, C8, C9, C10) -/

/-- Claim C7: `get_entry_content` returns the record stored under the
name in the first category containing it, categories examined in the
fixed order world, events, themes, characters, locations, factions,
items, quests, and returns none when no category contains the name. -/
theorem get_entry_content_first_category (st : LoreState) (n : String) :
    (∀ v, get_entry_content st n = some v ↔
      ∃ l₁ p l₂, loreItems st = l₁ ++ p :: l₂ ∧
        (∀ q ∈ l₁, dlookup q.2 n = none) ∧ dlookup p.2 n = some v) ∧
    (get_entry_content st n = none ↔ ∀ p ∈ loreItems st, dlookup p.2 n = none) ∧
    dkeys (loreItems st) = ["world", "events", "themes", "characters",
      "locations", "factions", "items", "quests"] :=
  ⟨fun v => firstEntryHit_some_iff _ _ v, firstEntryHit_none_iff _ _, rfl⟩

/-- Claim C8: `load_lore` never raises to its caller — for every input it
returns normally with some state; when the file does not exist the state
is returned untouched (so the categories of the freshly constructed
manager, all empty, stay empty); any parse exception is caught inside. -/
theorem load_lore_never_raises (st : LoreState) (fe : Bool)
    (rf : Except PyExn String)
    (pl : String → LoreState → LoreState × Option PyExn) :
    (∃ s, load_lore st fe rf pl = Except.ok s) ∧
    (fe = false → load_lore st fe rf pl = Except.ok st) ∧
    (∀ p ∈ loreItems initLoreState, p.2 = ([] : List (String × PyVal))) := by
  refine ⟨?_, ?_, by simp [loreItems, initLoreState]⟩
  · cases fe
    · exact ⟨st, rfl⟩
    · rcases rf with e | raw
      · exact ⟨st, rfl⟩
      · rcases hp : pl raw st with ⟨s, oe⟩
        rcases oe with _ | e
        · exact ⟨s, by simp [load_lore, load_lore_try, hp]⟩
        · exact ⟨s, by simp [load_lore, load_lore_try, hp]⟩
  · intro h
    subst h
    rfl

/-- Witness for C8 at a concrete input with a missing file. -/
theorem load_lore_never_raises_witness :
    load_lore initLoreState false (Except.ok "") (fun _ s => (s, none)) =
      Except.ok initLoreState :=
  (load_lore_never_raises initLoreState false (Except.ok "")
    (fun _ s => (s, none))).2.1 rfl

/-- Claim C9: every query operation of the knowledge base leaves the
manager state — the category dicts and the characters, items and quests
lists — unchanged. -/
theorem query_operations_leave_state_unchanged (st : LoreState) (q : QueryCall) :
    (runQuery st q).2 = st := by
  cases q <;> rfl

/-- Claim C10: `get_character_dialogue` is total — on a manager state
whose character entries are dicts (as the parser always builds) it
returns a string for every name and context without raising, and for an
unknown name it returns the fallback reply. -/
theorem get_character_dialogue_total_fallback (st : LoreState)
    (name context : String)
    (hd : ∀ kv ∈ st.characters, isVDict kv.2 = true) :
    (∃ r, get_character_dialogue st name context = Except.ok r) ∧
    (dlookup st.characters name = none →
      get_character_dialogue st name context = Except.ok (unknownCharReply name)) := by
  cases h : dlookup st.characters name with
  | none =>
    constructor
    · refine ⟨unknownCharReply name, ?_⟩
      unfold get_character_dialogue
      rw [h]
    · intro _
      unfold get_character_dialogue
      rw [h]
  | some v =>
    have hv := hd (name, v) (dlookup_mem h)
    refine ⟨?_, fun hn => ?_⟩
    · cases v with
      | vdict fields =>
        unfold get_character_dialogue
        rw [h]
        exact ⟨_, rfl⟩
      | str s => exact absurd hv (by simp [isVDict])
      | vlist l => exact absurd hv (by simp [isVDict])
    · exact absurd hn (by simp)

/-- Witness for C10 at a concrete state and an unknown name. -/
theorem get_character_dialogue_total_fallback_witness :
    get_character_dialogue kbOneChar "Nobody" "the gate" =
      Except.ok (unknownCharReply "Nobody") :=
  (get_character_dialogue_total_fallback kbOneChar "Nobody" "the gate"
    (by decide)).2 rfl

/-! ## Search lemmas -/

theorem listInfixOf_nil (l : List Char) : listInfixOf [] l = true := by
  cases l <;> rfl

theorem isEmpty_map_eq (l : List α) (f : α → β) : (l.map f).isEmpty = l.isEmpty := by
  cases l <;> rfl

/-- The empty query matches every string or dict content: the empty
string occurs in every text and in every name. -/
theorem entryMatches_empty (n : String) (c : PyVal) (h : topShape c = true) :
    entryMatches "" n c = true := by
  cases c with
  | str s => simp [entryMatches, pyIn, pyLower, listInfixOf_nil]
  | vdict fields => simp [entryMatches, pyIn, pyLower, listInfixOf_nil]
  | vlist l => simp [topShape] at h

/-- The code match rule, commuted into the per-shape form of the amended
claim. -/
theorem amendedMatch_eq_entryMatches (q n : String) (c : PyVal) :
    amendedMatch q n c = entryMatches q n c := by
  cases c with
  | str s => rfl
  | vdict fields => simp [amendedMatch, entryMatches, Bool.or_comm]
  | vlist l => rfl

theorem searchCats_eq_nil (query : String)
    (cats : List (String × List (String × PyVal)))
    (h : ∀ cd ∈ cats, ∀ kv ∈ cd.2, entryMatches query kv.1 kv.2 = false) :
    searchCats query cats = [] := by
  induction cats with
  | nil => rfl
  | cons p rest ih =>
    have hrs : searchCategory query p.2 = [] := by
      unfold searchCategory
      rw [List.filter_eq_nil_iff.mpr (fun kv hkv => by
        simp [h p (List.mem_cons_self _ _) kv hkv])]
      rfl
    have hstep : searchCats query (p :: rest) = searchCats query rest := by
      simp [searchCats, hrs]
    rw [hstep]
    exact ih (fun cd hcd kv hkv => h cd (List.mem_cons_of_mem _ hcd) kv hkv)

theorem searchCats_mem_ne_nil (query cat : String) (l : List String)
    (cats : List (String × List (String × PyVal)))
    (hm : (cat, l) ∈ searchCats query cats) : l ≠ [] := by
  induction cats with
  | nil => simp [searchCats] at hm
  | cons p rest ih =>
    by_cases hre : (searchCategory query p.2).isEmpty = true
    · have hstep : searchCats query (p :: rest) = searchCats query rest := by
        simp [searchCats, hre]
      rw [hstep] at hm
      exact ih hm
    · have hstep : searchCats query (p :: rest) =
          (p.1, searchCategory query p.2) :: searchCats query rest := by
        simp [searchCats, hre]
      rw [hstep] at hm
      rcases List.mem_cons.mp hm with heq | hm'
      · have hl : l = searchCategory query p.2 := congrArg Prod.snd heq
        rw [hl]
        intro hnil
        exact hre (by rw [hnil]; rfl)
      · exact ih hm'

theorem searchCats_empty_query (cats : List (String × List (String × PyVal)))
    (h : ∀ cd ∈ cats, ∀ kv ∈ cd.2, topShape kv.2 = true) :
    searchCats "" cats =
      cats.filterMap (fun p => if p.2.isEmpty then none else some (p.1, dkeys p.2)) := by
  induction cats with
  | nil => rfl
  | cons p rest ih =>
    have hfil : p.2.filter (fun kv => entryMatches "" kv.1 kv.2) = p.2 :=
      List.filter_eq_self.mpr (fun kv hkv =>
        entryMatches_empty kv.1 kv.2 (h p (List.mem_cons_self _ _) kv hkv))
    have hrs : searchCategory "" p.2 = dkeys p.2 := by
      unfold searchCategory
      rw [hfil]
      rfl
    have hemp : (searchCategory "" p.2).isEmpty = p.2.isEmpty := by
      rw [hrs]
      exact isEmpty_map_eq p.2 Prod.fst
    have ihr := ih (fun cd hcd kv hkv => h cd (List.mem_cons_of_mem _ hcd) kv hkv)
    have hstep : searchCats "" (p :: rest) =
        if p.2.isEmpty = true then searchCats "" rest
        else (p.1, dkeys p.2) :: searchCats "" rest := by
      simp only [searchCats]
      rw [hemp, hrs]
    by_cases hpe : p.2.isEmpty = true
    · rw [hstep, if_pos hpe, ihr, List.filterMap_cons]
      simp [hpe]
    · rw [hstep, if_neg hpe, ihr, List.filterMap_cons]
      simp [hpe]

theorem dlookup_searchCats_not_mem (query cat : String)
    (cats : List (String × List (String × PyVal)))
    (h : cat ∉ dkeys cats) :
    dlookup (searchCats query cats) cat = none := by
  induction cats with
  | nil => rfl
  | cons p rest ih =>
    simp only [dkeys, List.map_cons, List.mem_cons] at h
    push_neg at h
    by_cases hre : (searchCategory query p.2).isEmpty = true
    · have hstep : searchCats query (p :: rest) = searchCats query rest := by
        simp [searchCats, hre]
      rw [hstep]
      exact ih (by simpa [dkeys] using h.2)
    · have hstep : searchCats query (p :: rest) =
          (p.1, searchCategory query p.2) :: searchCats query rest := by
        simp [searchCats, hre]
      rw [hstep]
      simp only [dlookup]
      rw [if_neg (by simp only [beq_iff_eq]; exact fun hh => h.1 hh.symm)]
      exact ih (by simpa [dkeys] using h.2)

theorem dlookup_searchCats (query cat : String) (d : List (String × PyVal))
    (cats : List (String × List (String × PyVal)))
    (hnd : (dkeys cats).Nodup) (hcd : (cat, d) ∈ cats) :
    dlookup (searchCats query cats) cat =
      (if (searchCategory query d).isEmpty then none
       else some (searchCategory query d)) := by
  induction cats with
  | nil => simp at hcd
  | cons p rest ih =>
    obtain ⟨c0, d0⟩ := p
    simp only [dkeys, List.map_cons, List.nodup_cons] at hnd
    rcases List.mem_cons.mp hcd with heq | hm'
    · injection heq with hc hd
      subst hc
      subst hd
      by_cases hre : (searchCategory query d).isEmpty = true
      · have hstep : searchCats query ((cat, d) :: rest) = searchCats query rest := by
          simp [searchCats, hre]
        rw [hstep, if_pos hre]
        exact dlookup_searchCats_not_mem query cat rest (by simpa [dkeys] using hnd.1)
      · have hstep : searchCats query ((cat, d) :: rest) =
            (cat, searchCategory query d) :: searchCats query rest := by
          simp [searchCats, hre]
        rw [hstep, if_neg hre]
        simp [dlookup]
    · have hcat : cat ∈ dkeys rest := by
        simp only [dkeys]
        exact List.mem_map_of_mem Prod.fst hm'
      have hne : c0 ≠ cat := fun hh => hnd.1 (hh ▸ hcat)
      by_cases hre : (searchCategory query d0).isEmpty = true
      · have hstep : searchCats query ((c0, d0) :: rest) = searchCats query rest := by
          simp [searchCats, hre]
        rw [hstep]
        exact ih hnd.2 hm'
      · have hstep : searchCats query ((c0, d0) :: rest) =
            (c0, searchCategory query d0) :: searchCats query rest := by
          simp [searchCats, hre]
        rw [hstep]
        simp only [dlookup]
        rw [if_neg (by simp only [beq_iff_eq]; exact hne)]
        exact ih hnd.2 hm'

theorem mem_searchCategory (query name : String) (content : PyVal)
    (d : List (String × PyVal)) (hnd : (dkeys d).Nodup) (hm : (name, content) ∈ d) :
    (name ∈ searchCategory query d ↔ entryMatches query name content = true) := by
  induction d with
  | nil => simp at hm
  | cons kv rest ih =>
    obtain ⟨k1, v1⟩ := kv
    simp only [dkeys, List.map_cons, List.nodup_cons] at hnd
    rcases List.mem_cons.mp hm with heq | hm'
    · injection heq with hn hv
      subst hn
      subst hv
      unfold searchCategory
      cases hmt : entryMatches query name content with
      | true =>
        simp only [List.filter_cons, hmt, if_true, List.map_cons, List.mem_cons]
        simp
      | false =>
        simp only [List.filter_cons, hmt, Bool.false_eq_true, if_false]
        constructor
        · intro hmem
          obtain ⟨kv', hkv', hfst⟩ := List.mem_map.mp hmem
          have : name ∈ List.map Prod.fst rest :=
            hfst ▸ List.mem_map_of_mem Prod.fst (List.mem_of_mem_filter hkv')
          exact absurd this hnd.1
        · intro hfalse
          exact absurd hfalse (by simp)
    · have hname : name ∈ List.map Prod.fst rest := List.mem_map_of_mem Prod.fst hm'
      have hne : name ≠ k1 := fun hh => hnd.1 (hh ▸ hname)
      unfold searchCategory at ih ⊢
      cases hmt : entryMatches query k1 v1 with
      | true =>
        simp only [List.filter_cons, hmt, if_true, List.map_cons, List.mem_cons]
        constructor
        · rintro (rfl | hmem)
          · exact absurd rfl hne
          · exact (ih hnd.2 hm').mp hmem
        · intro hmt2
          exact Or.inr ((ih hnd.2 hm').mpr hmt2)
      | false =>
        simp only [List.filter_cons, hmt, Bool.false_eq_true, if_false]
        exact ih hnd.2 hm'

/-! ## Claim theorems (C1, C5, C6) -/

/-- Counterexample to C1 as stated: on a knowledge base built by the
character pass from one short-form profile, `search_lore` with the
empty-string query returns every entry (the empty string is a substring
of every text), not an empty mapping. -/
theorem search_lore_empty_query_cex :
    search_lore kbOneChar "" = [("characters", ["Amara"])] ∧
    search_lore kbOneChar "" ≠ [] := by
  constructor
  · decide
  · decide

/-- Claim C1 (amended): a query matching no entry yields an empty
mapping, and every category key present is bound to a non-empty list;
the empty-string query, however, matches every entry, so it returns
every non-empty category with its full entry-name list. -/
theorem search_lore_no_match_amended :
    (∀ st query,
      (∀ cd ∈ loreItems st, ∀ kv ∈ cd.2, entryMatches query kv.1 kv.2 = false) →
      search_lore st query = []) ∧
    (∀ st query cat l, (cat, l) ∈ search_lore st query → l ≠ []) ∧
    (∀ st, TopWF st → search_lore st "" =
      (loreItems st).filterMap (fun p =>
        if p.2.isEmpty then none else some (p.1, dkeys p.2))) :=
  ⟨fun st query h => searchCats_eq_nil query (loreItems st) h,
   fun st query cat l hm => searchCats_mem_ne_nil query cat l (loreItems st) hm,
   fun st htop => searchCats_empty_query (loreItems st) htop⟩

/-- Witness for C1 (amended) at concrete inputs: a query occurring
nowhere yields the empty mapping; the empty query returns the full
listing. -/
theorem search_lore_no_match_amended_witness :
    search_lore kbFreeText "zzz" = [] ∧
    search_lore kbOneChar "" = [("characters", ["Amara"])] := by
  constructor
  · exact search_lore_no_match_amended.1 kbFreeText "zzz" (by decide)
  · rw [search_lore_no_match_amended.2.2 kbOneChar (by unfold TopWF; decide)]
    decide

/-- Counterexample to C5 as stated: a free-text entry whose name contains
the query but whose text does not is not returned — for free-text
entries the code never consults the entry name. -/
theorem search_lore_freetext_name_cex :
    claimMatch "Dragon" "Dragon" (PyVal.str "fire and ash") = true ∧
    kbFreeText.world = [("Dragon", PyVal.str "fire and ash")] ∧
    search_lore kbFreeText "Dragon" = [] := by
  refine ⟨by decide, rfl, by decide⟩

/-- Claim C5 (amended): an entry name appears in the result list of its
category iff the query occurs case-insensitively in a string-valued
field of a record entry or in its name, or — for a free-text entry — in
the text itself (the name of a free-text entry is not consulted);
per-entry evaluation short-circuits at the first matching field. -/
theorem search_lore_match_iff (st : LoreState) (hwf : LoreWF st)
    (query cat name : String) (d : List (String × PyVal)) (content : PyVal)
    (hcd : (cat, d) ∈ loreItems st) (hm : (name, content) ∈ d) :
    (name ∈ resultsFor (search_lore st query) cat ↔
      amendedMatch query name content = true) := by
  have hnd8 : (dkeys (loreItems st)).Nodup := by
    show (["world", "events", "themes", "characters", "locations",
      "factions", "items", "quests"] : List String).Nodup
    decide
  have hdnd : (dkeys d).Nodup := by
    obtain ⟨h1, h2, h3, h4, h5, h6, h7, h8⟩ := hwf
    simp only [loreItems, List.mem_cons, List.not_mem_nil, or_false,
      Prod.mk.injEq] at hcd
    rcases hcd with hcase | hcase | hcase | hcase | hcase | hcase | hcase | hcase <;>
      rw [hcase.2] <;> assumption
  have hiff := mem_searchCategory query name content d hdnd hm
  rw [amendedMatch_eq_entryMatches]
  unfold resultsFor search_lore
  rw [dlookup_searchCats query cat d (loreItems st) hnd8 hcd]
  by_cases hre : (searchCategory query d).isEmpty = true
  · rw [if_pos hre]
    rw [List.isEmpty_iff.mp hre] at hiff
    simpa using hiff
  · rw [if_neg hre]
    simpa using hiff

/-- Witness for C5 (amended) at a concrete parser-built state: the query
occurs in a string field of the record, and the name is listed. -/
theorem search_lore_match_iff_witness :
    "Amara" ∈ resultsFor (search_lore kbOneChar "ember") "characters" :=
  (search_lore_match_iff kbOneChar (by unfold LoreWF; decide) "ember" "characters" "Amara"
    kbOneChar.characters
    (PyVal.vdict (shortRecord "Guardian of the ember gate" "Fierce and loyal" "" ""))
    (List.mem_cons_of_mem _ (List.mem_cons_of_mem _ (List.mem_cons_of_mem _
      (List.mem_cons_self _ _))))
    (List.mem_singleton.mpr rfl)).mpr (by decide)

/-- Claim C6: `get_entries_by_category` matches the category name
case-insensitively (lowercase-equal arguments give identical results)
and always returns a list sorted in the code-point lexicographic order
Python `sorted` uses, with no duplicates. -/
theorem get_entries_by_category_sorted_nodup (st : LoreState) (hwf : LoreWF st) :
    (∀ c c', pyLower c = pyLower c' →
      get_entries_by_category st c = get_entries_by_category st c') ∧
    ∀ c, List.Sorted (fun a b => pyStrLe a b = true) (get_entries_by_category st c) ∧
      (get_entries_by_category st c).Nodup := by
  constructor
  · intro c c' h
    unfold get_entries_by_category
    rw [h]
  · intro c
    unfold get_entries_by_category
    cases h : dlookup (loreItems st) (pyLower c) with
    | none => simp
    | some entries =>
      have hnd : (dkeys entries).Nodup := by
        have hmem := dlookup_mem h
        obtain ⟨h1, h2, h3, h4, h5, h6, h7, h8⟩ := hwf
        simp only [loreItems, List.mem_cons, List.not_mem_nil, or_false,
          Prod.mk.injEq] at hmem
        rcases hmem with hcase | hcase | hcase | hcase | hcase | hcase | hcase | hcase <;>
          rw [hcase.2] <;> assumption
      constructor
      · exact List.sorted_insertionSort _ _
      · exact (List.Perm.nodup_iff
          (List.perm_insertionSort (fun a b => pyStrLe a b = true) (dkeys entries))).mpr hnd

/-- Witness for C6 at a concrete state: uppercase and lowercase category
arguments agree, and the result has no duplicates. -/
theorem get_entries_by_category_sorted_nodup_witness :
    get_entries_by_category kbFreeText "WORLD" = get_entries_by_category kbFreeText "world" ∧
    (get_entries_by_category kbFreeText "WORLD").Nodup :=
  ⟨(get_entries_by_category_sorted_nodup kbFreeText (by unfold LoreWF; decide)).1 "WORLD" "world" (by decide),
   ((get_entries_by_category_sorted_nodup kbFreeText (by unfold LoreWF; decide)).2 "WORLD").2⟩

/-! ## Rarity window lemmas (C4) -/

theorem pySlice_nonneg (l : List Char) (a b : Nat) :
    pySlice l (a : Int) (b : Int) = (l.take b).drop a := by
  unfold pySlice pySliceIdx
  rw [if_neg (by omega), if_neg (by omega)]
  simp only [Int.toNat_ofNat]
  rcases le_total b l.length with hb | hb
  · rw [min_eq_left hb]
    rcases le_total a l.length with ha | ha
    · rw [min_eq_left ha]
    · rw [min_eq_right ha]
      rw [List.drop_eq_nil_of_le (by rw [List.length_take]; omega),
        List.drop_eq_nil_of_le (by rw [List.length_take]; omega)]
  · rw [min_eq_right hb, List.take_length, List.take_of_length_le hb]
    rcases le_total a l.length with ha | ha
    · rw [min_eq_left ha]
    · rw [min_eq_right ha]
      rw [List.drop_eq_nil_of_le (le_refl _), List.drop_eq_nil_of_le ha]

/-! ## Claim theorems (C4) -/

/-- Counterexample to C4 as stated: the catalogued name Solar Fang first
occurs at position 14 of this document, the word Legendary sits inside
the 100-character window before it, yet the code computes the slice
`content[-86:114]`, whose Python start index wraps to position 139 past
the stop index, giving an empty window and rarity Normal. -/
theorem item_rarity_window_cex :
    claimRarity cexRarityDoc cexRarityItem = "Legendary" ∧
    rarityOf cexRarityDoc cexRarityItem = "Normal" := by
  constructor
  · decide
  · decide

/-- Claim C4 (amended): for an item whose first occurrence is at position
at least 100, the stored rarity is Legendary when the literal word
occurs in the window from 100 characters before to 100 characters after
the start of the first occurrence, else Rare under the same test, else
Normal; when the first occurrence is earlier than position 100 the
Python slice start wraps to the end of the document and the window is
not the claimed one.  In every case the stored rarity is Normal, Rare or
Legendary. -/
theorem item_rarity_amended :
    (∀ content item : List Char, 100 ≤ pyFind content item →
      rarityOf content item = claimRarity content item) ∧
    (∀ content item : List Char, rarityOf content item = "Normal" ∨
      rarityOf content item = "Rare" ∨ rarityOf content item = "Legendary") := by
  constructor
  · intro content item h
    unfold rarityOf claimRarity
    cases hf : firstOccAux item content 0 with
    | none =>
      have hm1 : pyFind content item = -1 := by
        unfold pyFind
        rw [hf]
      rw [hm1] at h
      exact absurd h (by omega)
    | some n =>
      have hpf : pyFind content item = (n : Int) := by
        unfold pyFind
        rw [hf]
      have hn : 100 ≤ n := by
        rw [hpf] at h
        omega
      rw [hpf]
      simp only [Option.getD_some]
      have hw : pySlice content ((n : Int) - 100) ((n : Int) + 100) =
          (content.take (n + 100)).drop (n - 100) := by
        have h1 : ((n : Int) - 100) = (((n - 100 : Nat) : Nat) : Int) := by omega
        have h2 : ((n : Int) + 100) = (((n + 100 : Nat) : Nat) : Int) := by omega
        rw [h1, h2, pySlice_nonneg]
      rw [hw]
  · intro content item
    simp only [rarityOf]
    split_ifs <;> simp

/-- Witness for C4 (amended) at a document whose item occurrence starts
exactly at position 100. -/
theorem item_rarity_amended_witness :
    rarityOf witRarityDoc cexRarityItem = claimRarity witRarityDoc cexRarityItem :=
  item_rarity_amended.1 witRarityDoc cexRarityItem (by decide)

/-! ## Claim theorems (C3) -/

theorem find?_map_buildChoice (cm : List ChoiceMatch) (cid : String) :
    (cm.map buildChoice).find? (fun c => c.id == cid) =
      (cm.find? (fun m => m.id == cid)).map buildChoice := by
  rw [List.find?_map]
  rfl

/-- Claim C3: `_parse_quest_scenes` matches the choice pattern against
the whole document, not the scene body, so every scene record of every
quest carries the identical document-wide choice list, and a choice-id
lookup over any scene's list returns the first match in document order
(the lookup itself is modelled from the spec, the quest-engine module
not being among the sources). -/
theorem parse_quest_scenes_document_wide (cm : List ChoiceMatch)
    (sms sms' : List SceneMatch) (s s' : Scene)
    (hs : s ∈ parse_quest_scenes cm sms) (hs' : s' ∈ parse_quest_scenes cm sms') :
    s.choices = cm.map buildChoice ∧ s'.choices = s.choices ∧
    ∀ cid, findChoiceById s.choices cid =
      (cm.find? (fun m => m.id == cid)).map buildChoice := by
  obtain ⟨sm, hsm, rfl⟩ := List.mem_map.mp hs
  obtain ⟨sm', hsm', rfl⟩ := List.mem_map.mp hs'
  refine ⟨rfl, rfl, fun cid => ?_⟩
  unfold findChoiceById
  exact find?_map_buildChoice cm cid

/-- Witness for C3 at two concrete scene matches (as from two quests) and
a choice list with a duplicated option id: both scenes carry the same
document-wide list and the lookup returns the first `1A` match. -/
theorem parse_quest_scenes_document_wide_witness :
    (buildScene witChoiceMs witSceneM).choices = witChoiceMs.map buildChoice ∧
    (buildScene witChoiceMs witSceneM2).choices = (buildScene witChoiceMs witSceneM).choices ∧
    findChoiceById (buildScene witChoiceMs witSceneM).choices "1A" =
      some (buildChoice witChoice1A) := by
  have h := parse_quest_scenes_document_wide witChoiceMs [witSceneM] [witSceneM2]
    (buildScene witChoiceMs witSceneM) (buildScene witChoiceMs witSceneM2)
    (List.mem_map_of_mem _ (List.mem_singleton.mpr rfl))
    (List.mem_map_of_mem _ (List.mem_singleton.mpr rfl))
  refine ⟨h.1, h.2.1, ?_⟩
  rw [h.2.2 "1A"]
  rfl

/-! ## Character-profile pass lemmas (C2) -/

theorem applyShortMatch_lookup_ne (st : LoreState) (m : ShortMatch) (name : String)
    (h : pyStrip m.name ≠ name) :
    dlookup (applyShortMatch st m).characters name = dlookup st.characters name :=
  dlookup_dinsert_ne _ _ _ _ h

theorem shortPass_lookup_not_mem (ms : List ShortMatch) (st : LoreState) (name : String)
    (h : ∀ m ∈ ms, pyStrip m.name ≠ name) :
    dlookup ((ms.foldl applyShortMatch st)).characters name = dlookup st.characters name := by
  induction ms generalizing st with
  | nil => rfl
  | cons m rest ih =>
    rw [List.foldl_cons]
    rw [ih _ (fun m' hm' => h m' (List.mem_cons_of_mem _ hm'))]
    exact applyShortMatch_lookup_ne st m name (h m (List.mem_cons_self _ _))

theorem shortPass_lookup_mem (ms : List ShortMatch) (st : LoreState) (name : String)
    (h : ∃ m ∈ ms, pyStrip m.name = name) :
    ∃ b p ic qc, dlookup ((ms.foldl applyShortMatch st)).characters name =
      some (.vdict (shortRecord b p ic qc)) := by
  induction ms generalizing st with
  | nil =>
    obtain ⟨m, hm, -⟩ := h
    exact absurd hm (List.not_mem_nil m)
  | cons m rest ih =>
    rw [List.foldl_cons]
    by_cases hr : ∃ m' ∈ rest, pyStrip m'.name = name
    · exact ih _ hr
    · obtain ⟨m0, hm0, hname⟩ := h
      rcases List.mem_cons.mp hm0 with rfl | hm0'
      · push_neg at hr
        rw [shortPass_lookup_not_mem rest _ name hr]
        refine ⟨pyStrip m0.backstory, pyStrip m0.personality, m0.itemConnections,
          m0.questConnections, ?_⟩
        subst hname
        exact dlookup_dinsert_self _ _ _
      · exact absurd ⟨m0, hm0', hname⟩ hr

theorem shortPass_lookup_none (ms : List ShortMatch) (name : String)
    (h : ∀ m ∈ ms, pyStrip m.name ≠ name) :
    dlookup ((ms.foldl applyShortMatch initLoreState)).characters name = none := by
  rw [shortPass_lookup_not_mem ms initLoreState name h]
  rfl

theorem dupdate_short_expanded (b p ic qc ro re si : String) :
    dupdate (shortRecord b p ic qc) (expandedExtra ro re si) =
      shortRecord b p ic qc ++ expandedExtra ro re si := rfl

theorem dupdate_seven (b p ic qc ro re si x y z : String) :
    dupdate (shortRecord b p ic qc ++ expandedExtra ro re si) (expandedExtra x y z) =
      shortRecord b p ic qc ++ expandedExtra x y z := rfl

theorem dupdate_expanded (ro b p re si x y z : String) :
    dupdate (expandedRecord ro b p re si) (expandedExtra x y z) =
      expandedRecord x b p y z := rfl

theorem applyExpandedMatch_lookup_ne (st : LoreState) (e : ExpandedMatch) (name : String)
    (h : pyStrip e.name ≠ name) :
    dlookup (applyExpandedMatch st e).characters name = dlookup st.characters name := by
  unfold applyExpandedMatch
  by_cases hc : dcontains st.characters (pyStrip e.name) = true
  · rw [if_pos hc]
    exact dlookup_dmodify_ne _ _ _ _ h
  · rw [if_neg hc]
    exact dlookup_dinsert_ne _ _ _ _ h

theorem applyExpandedMatch_lookup_found (st : LoreState) (e : ExpandedMatch)
    (hc : dcontains st.characters (pyStrip e.name) = true) :
    dlookup (applyExpandedMatch st e).characters (pyStrip e.name) =
      (dlookup st.characters (pyStrip e.name)).map
        (fun v => vupdate v (expandedExtra (pyStrip e.role) (pyStrip e.relationships)
          (pyStrip e.significance))) := by
  unfold applyExpandedMatch
  rw [if_pos hc]
  exact dlookup_dmodify_self _ _ _

theorem applyExpandedMatch_lookup_new (st : LoreState) (e : ExpandedMatch)
    (hc : ¬ dcontains st.characters (pyStrip e.name) = true) :
    dlookup (applyExpandedMatch st e).characters (pyStrip e.name) =
      some (.vdict (expandedRecord (pyStrip e.role) (pyStrip e.backstory)
        (pyStrip e.personality) (pyStrip e.relationships) (pyStrip e.significance))) := by
  unfold applyExpandedMatch
  rw [if_neg hc]
  exact dlookup_dinsert_self _ _ _

theorem expPass_keep7 (exps : List ExpandedMatch) (st : LoreState) (name : String)
    (b p ic qc : String) (ro re si : String)
    (hst : dlookup st.characters name =
      some (.vdict (shortRecord b p ic qc ++ expandedExtra ro re si))) :
    ∃ x y z, dlookup ((exps.foldl applyExpandedMatch st)).characters name =
      some (.vdict (shortRecord b p ic qc ++ expandedExtra x y z)) := by
  induction exps generalizing st ro re si with
  | nil => exact ⟨ro, re, si, hst⟩
  | cons e rest ih =>
    rw [List.foldl_cons]
    by_cases hn : pyStrip e.name = name
    · subst hn
      have h1 := applyExpandedMatch_lookup_found st e
        (by rw [dcontains_eq_isSome, hst]; rfl)
      rw [hst] at h1
      have h2 : dlookup (applyExpandedMatch st e).characters (pyStrip e.name) =
          some (.vdict (shortRecord b p ic qc ++ expandedExtra (pyStrip e.role)
            (pyStrip e.relationships) (pyStrip e.significance))) := by
        rw [h1]
        simp [vupdate, dupdate_seven]
      exact ih _ _ _ _ h2
    · exact ih _ _ _ _ ((applyExpandedMatch_lookup_ne st e name hn).trans hst)

theorem expPass_merge (exps : List ExpandedMatch) (st : LoreState) (name : String)
    (b p ic qc : String)
    (hst : dlookup st.characters name = some (.vdict (shortRecord b p ic qc)))
    (he : ∃ e ∈ exps, pyStrip e.name = name) :
    ∃ ro re si, dlookup ((exps.foldl applyExpandedMatch st)).characters name =
      some (.vdict (shortRecord b p ic qc ++ expandedExtra ro re si)) := by
  induction exps generalizing st with
  | nil =>
    obtain ⟨e, he', -⟩ := he
    exact absurd he' (List.not_mem_nil e)
  | cons e rest ih =>
    rw [List.foldl_cons]
    by_cases hn : pyStrip e.name = name
    · subst hn
      have h1 := applyExpandedMatch_lookup_found st e
        (by rw [dcontains_eq_isSome, hst]; rfl)
      rw [hst] at h1
      have h2 : dlookup (applyExpandedMatch st e).characters (pyStrip e.name) =
          some (.vdict (shortRecord b p ic qc ++ expandedExtra (pyStrip e.role)
            (pyStrip e.relationships) (pyStrip e.significance))) := by
        rw [h1]
        simp [vupdate, dupdate_short_expanded]
      exact expPass_keep7 rest _ (pyStrip e.name) b p ic qc _ _ _ h2
    · rcases he with ⟨e0, he0, hname⟩
      rcases List.mem_cons.mp he0 with rfl | he0'
      · exact absurd hname hn
      · exact ih _ ((applyExpandedMatch_lookup_ne st e name hn).trans hst) ⟨e0, he0', hname⟩

theorem expPass_keep5 (exps : List ExpandedMatch) (st : LoreState) (name : String)
    (ro b p re si : String)
    (hst : dlookup st.characters name = some (.vdict (expandedRecord ro b p re si))) :
    ∃ x y z, dlookup ((exps.foldl applyExpandedMatch st)).characters name =
      some (.vdict (expandedRecord x b p y z)) := by
  induction exps generalizing st ro re si with
  | nil => exact ⟨ro, re, si, hst⟩
  | cons e rest ih =>
    rw [List.foldl_cons]
    by_cases hn : pyStrip e.name = name
    · subst hn
      have h1 := applyExpandedMatch_lookup_found st e
        (by rw [dcontains_eq_isSome, hst]; rfl)
      rw [hst] at h1
      have h2 : dlookup (applyExpandedMatch st e).characters (pyStrip e.name) =
          some (.vdict (expandedRecord (pyStrip e.role) b p
            (pyStrip e.relationships) (pyStrip e.significance))) := by
        rw [h1]
        simp [vupdate, dupdate_expanded]
      exact ih _ _ _ _ h2
    · exact ih _ _ _ _ ((applyExpandedMatch_lookup_ne st e name hn).trans hst)

theorem expPass_new (exps : List ExpandedMatch) (st : LoreState) (name : String)
    (hst : dlookup st.characters name = none)
    (he : ∃ e ∈ exps, pyStrip e.name = name) :
    ∃ ro b p re si, dlookup ((exps.foldl applyExpandedMatch st)).characters name =
      some (.vdict (expandedRecord ro b p re si)) := by
  induction exps generalizing st with
  | nil =>
    obtain ⟨e, he', -⟩ := he
    exact absurd he' (List.not_mem_nil e)
  | cons e rest ih =>
    rw [List.foldl_cons]
    by_cases hn : pyStrip e.name = name
    · subst hn
      have h1 := applyExpandedMatch_lookup_new st e
        (by rw [dcontains_eq_isSome, hst]; simp)
      obtain ⟨x, y, z, hfin⟩ := expPass_keep5 rest _ (pyStrip e.name) _ _ _ _ _ h1
      exact ⟨x, pyStrip e.backstory, pyStrip e.personality, y, z, hfin⟩
    · rcases he with ⟨e0, he0, hname⟩
      rcases List.mem_cons.mp he0 with rfl | he0'
      · exact absurd hname hn
      · exact ih _ ((applyExpandedMatch_lookup_ne st e name hn).trans hst) ⟨e0, he0', hname⟩

theorem shortPass_nodup (ms : List ShortMatch) (st : LoreState)
    (h : (dkeys st.characters).Nodup) :
    (dkeys ((ms.foldl applyShortMatch st)).characters).Nodup := by
  induction ms generalizing st with
  | nil => exact h
  | cons m rest ih =>
    rw [List.foldl_cons]
    exact ih _ (nodup_dkeys_dinsert _ _ _ h)

theorem expPass_nodup (exps : List ExpandedMatch) (st : LoreState)
    (h : (dkeys st.characters).Nodup) :
    (dkeys ((exps.foldl applyExpandedMatch st)).characters).Nodup := by
  induction exps generalizing st with
  | nil => exact h
  | cons e rest ih =>
    rw [List.foldl_cons]
    refine ih _ ?_
    unfold applyExpandedMatch
    by_cases hc : dcontains st.characters (pyStrip e.name) = true
    · rw [if_pos hc]
      show (dkeys (dmodify st.characters (pyStrip e.name) _)).Nodup
      rw [dkeys_dmodify]
      exact h
    · rw [if_neg hc]
      exact nodup_dkeys_dinsert _ _ _ h

/-! ## Claim theorems (C2) -/

/-- Claim C2: when a name matches both character shapes, parsing yields
exactly one record for it (the characters dict keys stay pairwise
distinct) whose field list is `shortRecord ++ expandedExtra` — literally
the union backstory, personality, item_connections, quest_connections,
role, relationships, significance of both shapes — and the short-form
values `b p ic qc` of the first pass survive the expanded-form merge
unchanged; a name seen only in the expanded shape is inserted as a new
five-field record. -/
theorem parse_character_profiles_merge (shorts : List ShortMatch)
    (exps : List ExpandedMatch) (name name' : String)
    (hs : ∃ m ∈ shorts, pyStrip m.name = name)
    (he : ∃ e ∈ exps, pyStrip e.name = name)
    (hs' : ∀ m ∈ shorts, pyStrip m.name ≠ name')
    (he' : ∃ e ∈ exps, pyStrip e.name = name') :
    (∃ b p ic qc ro re si,
      dlookup ((shorts.foldl applyShortMatch initLoreState)).characters name =
        some (.vdict (shortRecord b p ic qc)) ∧
      dlookup (parse_character_profiles initLoreState shorts exps).characters name =
        some (.vdict (shortRecord b p ic qc ++ expandedExtra ro re si))) ∧
    (dkeys (parse_character_profiles initLoreState shorts exps).characters).Nodup ∧
    (∃ ro b p re si,
      dlookup (parse_character_profiles initLoreState shorts exps).characters name' =
        some (.vdict (expandedRecord ro b p re si))) := by
  obtain ⟨b, p, ic, qc, hshort⟩ := shortPass_lookup_mem shorts initLoreState name hs
  obtain ⟨ro, re, si, hfin⟩ := expPass_merge exps _ name b p ic qc hshort he
  refine ⟨⟨b, p, ic, qc, ro, re, si, hshort, hfin⟩, ?_, ?_⟩
  · exact expPass_nodup exps _
      (shortPass_nodup shorts initLoreState (by simp [initLoreState, dkeys]))
  · exact expPass_new exps _ name' (shortPass_lookup_none shorts name' hs') he'

/-- Witness for C2 at concrete match lists: Amara appears in both shapes
and ends with the seven-field union record, Bren only in the expanded
shape and ends with a fresh five-field record. -/
theorem parse_character_profiles_merge_witness :
    (∃ b p ic qc ro re si,
      dlookup ((witShortMs.foldl applyShortMatch initLoreState)).characters "Amara" =
        some (.vdict (shortRecord b p ic qc)) ∧
      dlookup (parse_character_profiles initLoreState witShortMs witExpMs).characters "Amara" =
        some (.vdict (shortRecord b p ic qc ++ expandedExtra ro re si))) ∧
    (∃ ro b p re si,
      dlookup (parse_character_profiles initLoreState witShortMs witExpMs).characters "Bren" =
        some (.vdict (expandedRecord ro b p re si))) :=
  ⟨(parse_character_profiles_merge witShortMs witExpMs "Amara" "Bren"
      (by decide) (by decide) (by decide) (by decide)).1,
   (parse_character_profiles_merge witShortMs witExpMs "Amara" "Bren"
      (by decide) (by decide) (by decide) (by decide)).2.2⟩

end Zxi
